import Mathlib

/-!
Verification development for the MarketMind adaptive-trading engine.

Shallow embedding of the TypeScript sources:
  * `src/lib/mt5/types.ts`        — shared value types
  * `src/lib/strategies/base.ts`  — `BaseStrategy.validateSignal`, pivot helpers
  * `src/lib/strategies/smc.ts`   — the SMC strategy (order blocks, liquidity
    zones, fair-value gaps, `analyze`)
  * `src/lib/risk/manager.ts`     — the risk manager (daily-loss gate, position
    sizing, stop/target adjustment, break-even logic)
  * `src/lib/marketmind/core.ts`  — the learning engine (weights, signal
    arbitration) and the orchestrator symbol set

JavaScript numbers are modelled by `ℚ`.  The arithmetic on `ℚ` inside the
translated code is written with the kernel-computable wrappers `qAdd`,
`qSub`, `qMul`, `qDiv`, `jsAbs`, `jsMin`, `jsMax`, `jsRound` defined below;
each is proved equal to the corresponding Mathlib operation (`qAdd_eq`
etc.), so the abstract theorems can reason with ordinary `+ - * /` and
`min`, `max`, `| |` while concrete witnesses evaluate by `decide`.  Where
the TypeScript relies on IEEE-754 behaviour at a zero denominator
(`x / 0 = Infinity`, `NaN` comparisons are false), the embedding uses an
equivalent division-free form; each such spot carries a comment deriving
the equivalence.  JavaScript `Map` and `Set` are modelled by association
lists (insertion semantics of `Map.set`) and `Finset String`.
-/

/-! ### Kernel-computable rational arithmetic -/

/-- JS `a + b` on `ℚ` in a kernel-reducible form. -/
def qAdd (a b : ℚ) : ℚ := mkRat (a.num * b.den + b.num * a.den) (a.den * b.den)

/-- JS `a - b` on `ℚ` in a kernel-reducible form. -/
def qSub (a b : ℚ) : ℚ := mkRat (a.num * b.den - b.num * a.den) (a.den * b.den)

/-- JS `a * b` on `ℚ` in a kernel-reducible form. -/
def qMul (a b : ℚ) : ℚ := mkRat (a.num * b.num) (a.den * b.den)

/-- Rational inverse (`qInv 0 = 0`) in a kernel-reducible form. -/
def qInv (a : ℚ) : ℚ := Rat.divInt a.den a.num

/-- JS `a / b` on `ℚ` (`qDiv a 0 = 0`; the IEEE-754 `Infinity`/`NaN`
outcomes of a zero divisor are handled case-by-case at each use site). -/
def qDiv (a b : ℚ) : ℚ := qMul a (qInv b)

/-- JS `Math.abs`. -/
def jsAbs (x : ℚ) : ℚ := if x < 0 then -x else x

/-- JS `Math.min`. -/
def jsMin (a b : ℚ) : ℚ := if a ≤ b then a else b

/-- JS `Math.max`. -/
def jsMax (a b : ℚ) : ℚ := if b ≤ a then a else b

/-- Floor of a rational in a kernel-reducible form. -/
def qFloor (a : ℚ) : ℤ := a.floor

/-- JS `Math.round`: half-integers round toward positive infinity. -/
def jsRound (x : ℚ) : ℚ := (qFloor (qAdd x (mkRat 1 2)) : ℤ)

theorem qAdd_eq (a b : ℚ) : qAdd a b = a + b := (Rat.add_def' a b).symm

theorem qSub_eq (a b : ℚ) : qSub a b = a - b := (Rat.sub_def' a b).symm

theorem qMul_eq (a b : ℚ) : qMul a b = a * b := by
  rw [qMul, Rat.mul_def, Rat.normalize_eq_mkRat]

theorem qInv_eq (a : ℚ) : qInv a = a⁻¹ := by
  rw [qInv, ← Rat.inv_def]; rfl

theorem qDiv_eq (a b : ℚ) : qDiv a b = a / b := by
  rw [qDiv, qMul_eq, qInv_eq, div_eq_mul_inv]

theorem jsAbs_eq (x : ℚ) : jsAbs x = |x| := by
  unfold jsAbs
  rcases lt_or_le x 0 with h | h
  · rw [if_pos h, abs_of_neg h]
  · rw [if_neg (not_lt.mpr h), abs_of_nonneg h]

theorem jsMin_eq (a b : ℚ) : jsMin a b = min a b := by
  unfold jsMin
  rcases le_total a b with h | h
  · rw [if_pos h, min_eq_left h]
  · rcases eq_or_lt_of_le h with rfl | h2
    · simp
    · rw [if_neg (not_le.mpr h2), min_eq_right h]

theorem jsMax_eq (a b : ℚ) : jsMax a b = max a b := by
  unfold jsMax
  rcases le_total b a with h | h
  · rw [if_pos h, max_eq_left h]
  · rcases eq_or_lt_of_le h with rfl | h2
    · simp
    · rw [if_neg (not_le.mpr h2), max_eq_right h]

theorem qFloor_eq (a : ℚ) : qFloor a = ⌊a⌋ := by
  rw [qFloor, Rat.floor_def', Rat.floor_def]

theorem jsRound_eq (x : ℚ) : jsRound x = (⌊x + 1/2⌋ : ℤ) := by
  rw [jsRound, qFloor_eq, qAdd_eq]
  norm_num

/-! ### Shared value types (`types.ts`) -/

/-- Bar type `OHLC` from `types.ts` (field `open` is renamed `opn`: `open` is a
Lean keyword). -/
structure OHLC where
  time : ℤ
  opn : ℚ
  high : ℚ
  low : ℚ
  close : ℚ
  volume : ℚ
deriving DecidableEq, Repr, Inhabited

/-- Tick snapshot `MarketData` from `types.ts`. -/
structure MarketData where
  symbol : String
  bid : ℚ
  ask : ℚ
  spread : ℚ
  volume : ℚ
  timestamp : ℤ
deriving DecidableEq, Repr, Inhabited

/-- The `action` field of `StrategySignal`: the string literals
`'BUY' | 'SELL' | 'CLOSE'`.  As a non-empty string literal it is always
truthy in the JS guard `!signal.action`. -/
inductive TradeAction where
  | BUY
  | SELL
  | CLOSE
deriving DecidableEq, Repr, Inhabited

/-- Signal type `StrategySignal` from `types.ts`. -/
structure StrategySignal where
  symbol : String
  action : TradeAction
  confidence : ℚ
  entry : ℚ
  stopLoss : ℚ
  takeProfit : ℚ
  strategy : String
  timestamp : ℤ
deriving DecidableEq, Repr, Inhabited

/-- Open-position type `Position` from `types.ts` (fields used by the risk manager; `type` is
the BUY/SELL direction, which `shouldMoveToBreakEven` never reads). -/
structure Position where
  ticket : ℤ
  symbol : String
  type : TradeAction
  volume : ℚ
  openPrice : ℚ
  currentPrice : ℚ
  profit : ℚ
  stopLoss : ℚ
  takeProfit : ℚ
deriving DecidableEq, Repr, Inhabited

/-- Account snapshot `AccountInfo` from `types.ts` (fields used by the risk manager). -/
structure AccountInfo where
  balance : ℚ
  equity : ℚ
deriving DecidableEq, Repr, Inhabited

/-- Symbol limits `SymbolInfo` from `types.ts` (fields used by position sizing). -/
structure SymbolInfo where
  point : ℚ
  volumeMin : ℚ
  volumeMax : ℚ
  volumeStep : ℚ
deriving DecidableEq, Repr, Inhabited

/-- Configuration `RiskParams` from `types.ts`. -/
structure RiskParams where
  maxRiskPerTrade : ℚ
  maxDailyLoss : ℚ
  maxOpenPositions : ℕ
  minRiskReward : ℚ
  maxSpread : ℚ
  newsFilterEnabled : Bool
deriving DecidableEq, Repr, Inhabited

namespace SMC

/-- Interface `OrderBlock` from `smc.ts`. -/
structure OrderBlock where
  type : Bool      -- `true` = bullish, `false` = bearish
  high : ℚ
  low : ℚ
  index : ℕ
  strength : ℚ
  tested : Bool
deriving DecidableEq, Repr, Inhabited

/-- Interface `LiquidityZone` from `smc.ts` (`type`: `true` = resistance,
`false` = support). -/
structure LiquidityZone where
  type : Bool
  level : ℚ
  strength : ℚ
  touches : ℕ
deriving DecidableEq, Repr, Inhabited

/-- Interface `FairValueGap` from `smc.ts` (`type`: `true` = bullish). -/
structure FairValueGap where
  type : Bool
  top : ℚ
  bottom : ℚ
  index : ℕ
  filled : Bool
deriving DecidableEq, Repr, Inhabited

/-- Array access `ohlc[i]` (every TS loop guards its indices, so the default
is never observed along source paths). -/
def getBar (ohlc : List OHLC) (i : ℕ) : OHLC := ohlc.getD i default

/-- Array access for price lists (`highs[j]`, `lows[j]`). -/
def getQ (l : List ℚ) (i : ℕ) : ℚ := l.getD i 0

/-- Predicate `isBullishOrderBlock` from `smc.ts`: long lower wick (at least half the
body), bullish close, and at least two of the next three bars close above
the candle's high. -/
def isBullishOrderBlock (ohlc : List OHLC) (index : ℕ) : Bool :=
  let current := getBar ohlc index
  let bodySize := jsAbs (qSub current.close current.opn)
  let lowerWick := qSub (jsMin current.opn current.close) current.low
  if lowerWick < qMul bodySize (mkRat 1 2) ∨ current.close ≤ current.opn then false
  else
    let bullishMove := ((List.range' (index + 1) 3).filter
      (fun i => decide (i < ohlc.length ∧ (getBar ohlc i).close > current.high))).length
    decide (2 ≤ bullishMove)

/-- Predicate `isBearishOrderBlock` from `smc.ts` (mirror of the bullish rule). -/
def isBearishOrderBlock (ohlc : List OHLC) (index : ℕ) : Bool :=
  let current := getBar ohlc index
  let bodySize := jsAbs (qSub current.close current.opn)
  let upperWick := qSub current.high (jsMax current.opn current.close)
  if upperWick < qMul bodySize (mkRat 1 2) ∨ current.close ≥ current.opn then false
  else
    let bearishMove := ((List.range' (index + 1) 3).filter
      (fun i => decide (i < ohlc.length ∧ (getBar ohlc i).close < current.low))).length
    decide (2 ≤ bearishMove)

/-- Score `calculateOrderBlockStrength` from `smc.ts`: volume bonus, wick-to-body
factor, recency factor, capped at 100. -/
def calculateOrderBlockStrength (ohlc : List OHLC) (index : ℕ) (bullish : Bool) : ℚ :=
  let current := getBar ohlc index
  let base : ℚ := if current.volume > 1000 then 20 else 10
  let bodySize := jsAbs (qSub current.close current.opn)
  let wickSize := if bullish then qSub (jsMin current.opn current.close) current.low
    else qSub current.high (jsMax current.opn current.close)
  let recency := qDiv (qSub (ohlc.length : ℚ) (index : ℚ)) (ohlc.length : ℚ)
  jsMin (qAdd (qAdd base (qMul (qDiv wickSize bodySize) 30)) (qMul recency 20)) 100

/-- Stable insertion into a strength-descending list: models the JS stable
`sort((a, b) => b.strength - a.strength)` comparator. -/
def insertByStrength (x : OrderBlock) : List OrderBlock → List OrderBlock
  | [] => [x]
  | y :: ys => if y.strength < x.strength then x :: y :: ys else y :: insertByStrength x ys

/-- Stable sort by descending strength. -/
def sortByStrength : List OrderBlock → List OrderBlock
  | [] => []
  | x :: xs => insertByStrength x (sortByStrength xs)

/-- Detection pass `updateOrderBlocks` from `smc.ts`: scan bars `10 ≤ i < length - 5`,
collect bullish/bearish blocks, sort by descending strength, keep 10.
The scan ignores any previous block set (`this.orderBlocks = []`). -/
def updateOrderBlocks (ohlc : List OHLC) : List OrderBlock :=
  let raw := ((List.range (ohlc.length - 5)).drop 10).filterMap fun i =>
    if isBullishOrderBlock ohlc i then
      some ⟨true, (getBar ohlc i).high, (getBar ohlc i).low, i,
        calculateOrderBlockStrength ohlc i true, false⟩
    else if isBearishOrderBlock ohlc i then
      some ⟨false, (getBar ohlc i).high, (getBar ohlc i).low, i,
        calculateOrderBlockStrength ohlc i false, false⟩
    else none
  (sortByStrength raw).take 10

/-- Helper `findPivotHighs` from `base.ts` with `leftBars = rightBars = 3`: for each
`3 ≤ i < length - 3` emit the high if it strictly exceeds the three highs on
each side, else `0`. -/
def findPivotHighs (highs : List ℚ) : List ℚ :=
  (List.range' 3 (highs.length - 6)).map fun i =>
    if ((List.range' (i - 3) 3).all fun j => decide (getQ highs j < getQ highs i)) &&
       ((List.range' (i + 1) 3).all fun j => decide (getQ highs j < getQ highs i)) then
      getQ highs i
    else 0

/-- Helper `findPivotLows` from `base.ts` with `leftBars = rightBars = 3`. -/
def findPivotLows (lows : List ℚ) : List ℚ :=
  (List.range' 3 (lows.length - 6)).map fun i =>
    if ((List.range' (i - 3) 3).all fun j => decide (getQ lows j > getQ lows i)) &&
       ((List.range' (i + 1) 3).all fun j => decide (getQ lows j > getQ lows i)) then
      getQ lows i
    else 0

/-- Score `calculateLiquidityStrength` from `smc.ts`: 25 per later bar whose high
or low is within 0.1% of the level, capped at 100. -/
def calculateLiquidityStrength (ohlc : List OHLC) (index : ℕ) (level : ℚ) : ℚ :=
  let touches := ((List.range ohlc.length).filter fun i =>
    decide (index + 1 ≤ i ∧
      (jsAbs (qSub (getBar ohlc i).high level) < qMul level (mkRat 1 1000) ∨
       jsAbs (qSub (getBar ohlc i).low level) < qMul level (mkRat 1 1000)))).length
  jsMin (qMul (touches : ℚ) 25) 100

/-- Detection pass `updateLiquidityZones` from `smc.ts`: resistance zones from pivot highs
(in pivot order) followed by support zones from pivot lows.  Pivot slot `i`
corresponds to bar `i + 3`.  The scan ignores any previous zone set. -/
def updateLiquidityZones (ohlc : List OHLC) : List LiquidityZone :=
  let highs := ohlc.map OHLC.high
  let lows := ohlc.map OHLC.low
  let ph := findPivotHighs highs
  let pl := findPivotLows lows
  ((List.range ph.length).filterMap fun i =>
    if getQ ph i > 0 then
      some ⟨true, getQ ph i, calculateLiquidityStrength ohlc (i + 3) (getQ ph i), 1⟩
    else none) ++
  ((List.range pl.length).filterMap fun i =>
    if getQ pl i > 0 then
      some ⟨false, getQ pl i, calculateLiquidityStrength ohlc (i + 3) (getQ pl i), 1⟩
    else none)

/-- Detection pass `updateFairValueGaps` from `smc.ts`: scan `1 ≤ i < length - 1`; a bullish
gap needs `prev.high < next.low` and a bullish middle bar (mirror for
bearish).  Every produced gap has `filled := false`; the scan starts from
`this.fairValueGaps = []`, so any previous `filled` marking is discarded. -/
def updateFairValueGaps (ohlc : List OHLC) : List FairValueGap :=
  (List.range' 1 (ohlc.length - 2)).filterMap fun i =>
    let prev := getBar ohlc (i - 1)
    let current := getBar ohlc i
    let next := getBar ohlc (i + 1)
    if prev.high < next.low ∧ current.close > current.opn then
      some ⟨true, next.low, prev.high, i, false⟩
    else if prev.low > next.high ∧ current.close < current.opn then
      some ⟨false, prev.low, next.high, i, false⟩
    else none

/-- The strategy name passed to `super` in the `SMCStrategy` constructor. -/
def smcName : String := "SMC (Smart Money)"

/-- Signal check `checkOrderBlockEntry` from `smc.ts`: first untested block whose
±10%-of-range band contains the current price yields a signal in the
block's direction. -/
def checkOrderBlockEntry (orderBlocks : List OrderBlock) (currentPrice : ℚ) :
    Option StrategySignal :=
  orderBlocks.findSome? fun ob =>
    if ob.tested then none
    else
      let tolerance := qMul (qSub ob.high ob.low) (mkRat 1 10)
      if ob.type ∧ qSub ob.low tolerance ≤ currentPrice ∧
          currentPrice ≤ qAdd ob.high tolerance then
        some ⟨"", .BUY, qDiv ob.strength 100, currentPrice,
          qSub ob.low (qMul (qSub ob.high ob.low) (mkRat 1 5)),
          qAdd currentPrice (qMul (qSub currentPrice ob.low) 2), smcName, 0⟩
      else if ¬ob.type ∧ qSub ob.low tolerance ≤ currentPrice ∧
          currentPrice ≤ qAdd ob.high tolerance then
        some ⟨"", .SELL, qDiv ob.strength 100, currentPrice,
          qAdd ob.high (qMul (qSub ob.high ob.low) (mkRat 1 5)),
          qSub currentPrice (qMul (qSub ob.high currentPrice) 2), smcName, 0⟩
      else none

/-- Signal check `checkLiquidityGrabReversal` from `smc.ts`: price broke a zone level by
more than 0.1% and the last of the ten most recent bars closes back against
the breakout. -/
def checkLiquidityGrabReversal (liquidityZones : List LiquidityZone)
    (currentPrice : ℚ) (ohlc : List OHLC) : Option StrategySignal :=
  let recent := ohlc.drop (ohlc.length - 10)
  if recent.length < 5 then none
  else
    let lastBar := getBar recent (recent.length - 1)
    liquidityZones.findSome? fun zone =>
      let tolerance := qMul zone.level (mkRat 1 1000)
      if zone.type ∧ currentPrice > qAdd zone.level tolerance then
        if lastBar.close < lastBar.opn then
          some ⟨"", .SELL, qDiv zone.strength 100, currentPrice,
            qAdd zone.level (qMul zone.level (mkRat 2 1000)),
            qSub currentPrice (qMul (qSub currentPrice zone.level) (mkRat 3 2)), smcName, 0⟩
        else none
      else if ¬zone.type ∧ currentPrice < qSub zone.level tolerance then
        if lastBar.close > lastBar.opn then
          some ⟨"", .BUY, qDiv zone.strength 100, currentPrice,
            qSub zone.level (qMul zone.level (mkRat 2 1000)),
            qAdd currentPrice (qMul (qSub zone.level currentPrice) (mkRat 3 2)), smcName, 0⟩
        else none
      else none

/-- Signal check `checkFairValueGapFill` from `smc.ts`: the first unfilled gap whose range
contains the current price yields a signal in the gap's direction; gaps with
`filled = true` are skipped (`continue`). -/
def checkFairValueGapFill (fairValueGaps : List FairValueGap) (currentPrice : ℚ) :
    Option StrategySignal :=
  fairValueGaps.findSome? fun fvg =>
    if fvg.filled then none
    else if fvg.type ∧ fvg.bottom ≤ currentPrice ∧ currentPrice ≤ fvg.top then
      some ⟨"", .BUY, mkRat 3 4, currentPrice,
        qSub fvg.bottom (qMul (qSub fvg.top fvg.bottom) (mkRat 1 2)),
        qAdd currentPrice (qMul (qSub fvg.top fvg.bottom) 2), smcName, 0⟩
    else if ¬fvg.type ∧ fvg.bottom ≤ currentPrice ∧ currentPrice ≤ fvg.top then
      some ⟨"", .SELL, mkRat 3 4, currentPrice,
        qAdd fvg.top (qMul (qSub fvg.top fvg.bottom) (mkRat 1 2)),
        qSub currentPrice (qMul (qSub fvg.top fvg.bottom) 2), smcName, 0⟩
    else none

/-- Gate `BaseStrategy.validateSignal` from `base.ts`.  The JS code is
`if (!signal.symbol || !signal.action || signal.confidence < 0.5) return false`
followed by `riskReward = |tp - entry| / |entry - sl|; if (riskReward < 1.5)
return false`.  In IEEE-754, with `d = |entry - sl|` and `r = |tp - entry|`:
if `d > 0` the check passes iff `r ≥ 1.5·d`; if `d = 0` the ratio is
`Infinity` (`r > 0`) or `NaN` (`r = 0`) and `ratio < 1.5` is false either
way, so the check passes — and `r ≥ 1.5·0` holds as well.  Hence the JS
risk-reward gate is exactly the division-free `2·r ≥ 3·d`. -/
def validateSignal (s : StrategySignal) : Bool :=
  decide (s.symbol ≠ "") &&
  decide (¬s.confidence < mkRat 1 2) &&
  decide (¬qMul 2 (jsAbs (qSub s.takeProfit s.entry)) <
    qMul 3 (jsAbs (qSub s.entry s.stopLoss)))

/-- The mutation `signal.symbol = symbol; signal.strategy = this.name;
signal.timestamp = Date.now()` performed by `analyze` on each candidate. -/
def stamp (symbol : String) (now : ℤ) (s : StrategySignal) : StrategySignal :=
  { s with symbol := symbol, strategy := smcName, timestamp := now }

/-- One `if (candidate) { ...; if (this.validateSignal(candidate)) return
candidate; }` block of `analyze`: a candidate that fails validation falls
through to the rest of the chain. -/
def tryCand (c rest : Option StrategySignal) : Option StrategySignal :=
  match c with
  | some s => if validateSignal s then some s else rest
  | none => rest

/-- The mutable per-strategy structure state of `SMCStrategy`. -/
structure SMCState where
  orderBlocks : List OrderBlock
  liquidityZones : List LiquidityZone
  fairValueGaps : List FairValueGap
deriving DecidableEq, Repr, Inhabited

/-- The strategy state at construction time (all three lists empty). -/
def initState : SMCState := ⟨[], [], []⟩

/-- Entry point `SMCStrategy.analyze` from `smc.ts`: guard on activity and window length,
recompute the three structure sets from scratch, then try order-block,
liquidity-grab and fair-value-gap candidates in that order, each gated by
`validateSignal`.  Returns the emitted signal together with the updated
strategy state.  (The TS `try/catch` is dead in the embedding: every
operation is total.) -/
def analyze (st : SMCState) (isActive : Bool) (symbol : String)
    (ohlc : List OHLC) (marketData : MarketData) (now : ℤ) :
    Option StrategySignal × SMCState :=
  if ¬isActive ∨ ohlc.length < 50 then (none, st)
  else
    let st' : SMCState := ⟨updateOrderBlocks ohlc, updateLiquidityZones ohlc,
      updateFairValueGaps ohlc⟩
    let currentPrice := marketData.bid
    let obCand := (stamp symbol now) <$> checkOrderBlockEntry st'.orderBlocks currentPrice
    let lqCand := (stamp symbol now) <$>
      checkLiquidityGrabReversal st'.liquidityZones currentPrice ohlc
    let gapCand := (stamp symbol now) <$> checkFairValueGapFill st'.fairValueGaps currentPrice
    (tryCand obCand (tryCand lqCand (tryCand gapCand none)), st')

end SMC

namespace Risk

/-- Which branch of the risk manager produced a validation outcome.  The TS
returns human-readable strings (some with interpolated numbers); the
embedding keeps the branch identity, which is what the properties are
about. -/
inductive ValidationReason where
  | tradingBlocked        -- 'Trading blocked due to daily loss limit'
  | noAccountInfo         -- 'Cannot retrieve account information'
  | dailyLossLimit        -- 'Daily loss limit reached: ...'
  | maxPositionsReached   -- 'Maximum open positions reached: ...'
  | noMarketData          -- 'Cannot retrieve market data for spread check'
  | spreadTooWide         -- 'Spread too wide: ...'
  | invalidPositionSize   -- 'Unable to calculate valid position size'
  | validated             -- 'Trade validated successfully'
deriving DecidableEq, Repr, Inhabited

/-- Interface `TradeValidationResult` from `risk/manager.ts`. -/
structure TradeValidationResult where
  isValid : Bool
  reason : ValidationReason
  adjustedSignal : Option StrategySignal
  positionSize : Option ℚ
deriving DecidableEq, Repr, Inhabited

/-- The mutable state of `RiskManager`. -/
structure RiskState where
  dailyStartBalance : ℚ
  dailyPL : ℚ
  isTradeBlocked : Bool
deriving DecidableEq, Repr, Inhabited

/-- The external values `validateTrade` fetches from the MT5 connection
during one call (account snapshot, open positions, market data for the
signal's symbol, symbol info). -/
structure RMEnv where
  accountInfo : Option AccountInfo
  positions : List Position
  marketData : Option MarketData
  symbolInfo : Option SymbolInfo
deriving DecidableEq, Repr, Inhabited

/-- Check `checkDailyLossLimit` from `risk/manager.ts`: compares the balance drop
since day start with `dayStartBalance × maxDailyLoss / 100`; on breach it
sets the sticky `isTradeBlocked` flag.  Returns the `passed` flag and the
updated state. -/
def checkDailyLossLimit (rp : RiskParams) (st : RiskState) (accountInfo : AccountInfo) :
    Bool × RiskState :=
  let maxDailyLoss := qDiv (qMul st.dailyStartBalance rp.maxDailyLoss) 100
  let currentDailyLoss := qSub st.dailyStartBalance accountInfo.balance
  if currentDailyLoss ≥ maxDailyLoss then (false, { st with isTradeBlocked := true })
  else (true, st)

/-- Sizing `calculatePositionSize` from `risk/manager.ts`:
`riskAmount = equity × maxRiskPerTrade / 100`;
`positionSize = riskAmount / (stopLossDistance / point * tickValue)` with
`tickValue = 1` (the stop distance is converted to points); the result is
rounded to the nearest `volumeStep` and then clamped by
`max(volumeMin, min(volumeMax, ·))`.  Missing symbol info (or the TS
`catch`) yields `0`.  The IEEE-754 behaviour at `stopLossDistance = 0`
(`Infinity`/`NaN`) has no counterpart in `ℚ`; the theorems below therefore
assume a positive stop distance, positive point and positive step, where
the `ℚ` translation agrees with the JS float computation exactly. -/
def calculatePositionSize (rp : RiskParams) (signal : StrategySignal)
    (accountInfo : AccountInfo) (symbolInfo : Option SymbolInfo) : ℚ :=
  match symbolInfo with
  | none => 0
  | some si =>
    let riskAmount := qDiv (qMul accountInfo.equity rp.maxRiskPerTrade) 100
    let stopLossDistance := jsAbs (qSub signal.entry signal.stopLoss)
    let tickValue : ℚ := 1
    let positionSize := qDiv riskAmount (qMul (qDiv stopLossDistance si.point) tickValue)
    jsMax si.volumeMin (jsMin si.volumeMax
      (qMul (jsRound (qDiv positionSize si.volumeStep)) si.volumeStep))

/-- Pass-through `adjustStopLoss` from `risk/manager.ts`: returns the stop unchanged. -/
def adjustStopLoss (signal : StrategySignal) : ℚ := signal.stopLoss

/-- Adjustment `adjustTakeProfit` from `risk/manager.ts`.  The JS computes
`currentRR = rewardDistance / riskDistance` and adjusts when
`currentRR < minRiskReward`.  In IEEE-754, with `riskDistance = 0` the
ratio is `Infinity` or `NaN` and the `<` test is false either way, so the
adjustment fires exactly when `riskDistance > 0 ∧ rewardDistance <
minRiskReward · riskDistance`.  The adjusted target is
`entry ± riskDistance · minRiskReward` (plus for BUY, minus otherwise). -/
def adjustTakeProfit (rp : RiskParams) (signal : StrategySignal) : ℚ :=
  let riskDistance := jsAbs (qSub signal.entry signal.stopLoss)
  let rewardDistance := jsAbs (qSub signal.takeProfit signal.entry)
  if 0 < riskDistance ∧ rewardDistance < qMul rp.minRiskReward riskDistance then
    let minReward := qMul riskDistance rp.minRiskReward
    if signal.action = .BUY then qAdd signal.entry minReward
    else qSub signal.entry minReward
  else signal.takeProfit

/-- Chain `validateTrade` from `risk/manager.ts`: the ordered, short-circuiting
check chain — blocked flag, account fetch, daily loss, open-position count,
spread, position size — and on success the adjusted signal and size.
Returns the result together with the updated manager state (only the
daily-loss check mutates it). -/
def validateTrade (rp : RiskParams) (st : RiskState) (env : RMEnv)
    (signal : StrategySignal) : TradeValidationResult × RiskState :=
  if st.isTradeBlocked then (⟨false, .tradingBlocked, none, none⟩, st)
  else
    match env.accountInfo with
    | none => (⟨false, .noAccountInfo, none, none⟩, st)
    | some accountInfo =>
      let dailyCheck := checkDailyLossLimit rp st accountInfo
      if ¬dailyCheck.1 then (⟨false, .dailyLossLimit, none, none⟩, dailyCheck.2)
      else if rp.maxOpenPositions ≤ env.positions.length then
        (⟨false, .maxPositionsReached, none, none⟩, dailyCheck.2)
      else
        match env.marketData with
        | none => (⟨false, .noMarketData, none, none⟩, dailyCheck.2)
        | some md =>
          if md.spread > rp.maxSpread then
            (⟨false, .spreadTooWide, none, none⟩, dailyCheck.2)
          else
            let positionSize := calculatePositionSize rp signal accountInfo env.symbolInfo
            if positionSize ≤ 0 then
              (⟨false, .invalidPositionSize, none, none⟩, dailyCheck.2)
            else
              (⟨true, .validated,
                some { signal with stopLoss := adjustStopLoss signal,
                                   takeProfit := adjustTakeProfit rp signal },
                some positionSize⟩, dailyCheck.2)

/-- Check `shouldMoveToBreakEven` from `risk/manager.ts`: the code compares
`Math.abs(currentPrice - openPrice)` — not the signed profit — with
1.5 × the stop distance, and requires the stop not already at entry. -/
def shouldMoveToBreakEven (position : Position) : Bool :=
  let riskDistance := jsAbs (qSub position.openPrice position.stopLoss)
  let currentProfit := qSub position.currentPrice position.openPrice
  decide (jsAbs currentProfit ≥ qMul riskDistance (mkRat 3 2)) &&
  decide (position.stopLoss ≠ position.openPrice)

/-- Action `moveToBreakEven` from `risk/manager.ts`: `modifyPosition(ticket,
openPrice, takeProfit)`, i.e. the stop becomes the entry price. -/
def moveToBreakEven (position : Position) : Position :=
  { position with stopLoss := position.openPrice }

/-- Check `shouldEmergencyClose` from `risk/manager.ts`. -/
def shouldEmergencyClose (rp : RiskParams) (st : RiskState) (position : Position) : Bool :=
  let maxLossAmount := qDiv (qMul (qMul st.dailyStartBalance rp.maxRiskPerTrade) 2) 100
  decide (jsAbs position.profit ≥ maxLossAmount) && decide (position.profit < 0)

/-- Refresh `updateDailyPL` from `risk/manager.ts`: refreshes `dailyPL` from the
balance; it never touches `isTradeBlocked`. -/
def updateDailyPL (st : RiskState) (accountInfo : Option AccountInfo) : RiskState :=
  match accountInfo with
  | none => st
  | some a => { st with dailyPL := qSub a.balance st.dailyStartBalance }

/-- Reset `resetDailyTracking` from `risk/manager.ts`: re-reads the day-start
balance and clears the sticky blocked flag — the only operation that ever
clears it. -/
def resetDailyTracking (accountInfo : Option AccountInfo) (st : RiskState) : RiskState :=
  match accountInfo with
  | none => { st with isTradeBlocked := false }
  | some a => ⟨a.balance, 0, false⟩

/-- The risk-manager operations that can run during a trading day (an
explicit daily reset is deliberately not among them). -/
inductive RMEvent where
  | validate (env : RMEnv) (signal : StrategySignal)
  | updatePL (accountInfo : Option AccountInfo)
deriving Repr, Inhabited

/-- State transition of one intra-day risk-manager event. -/
def rmStep (rp : RiskParams) (st : RiskState) : RMEvent → RiskState
  | .validate env signal => (validateTrade rp st env signal).2
  | .updatePL accountInfo => updateDailyPL st accountInfo

end Risk

namespace Learning

/-- JS `Map.set` on a string-keyed association list: replace the first
binding of the key or append a fresh one (insertion-order semantics). -/
def mapSet {b : Type} (k : String) (v : b) : List (String × b) → List (String × b)
  | [] => [(k, v)]
  | p :: rest => if p.1 = k then (k, v) :: rest else p :: mapSet k v rest

/-- JS `Map.get` on a string-keyed association list. -/
def mapGet {b : Type} (k : String) : List (String × b) → Option b
  | [] => none
  | p :: rest => if p.1 = k then some p.2 else mapGet k rest

/-- Lookup `map.get(k) || 1.0`: JS `||` also replaces a stored `0` (falsy) by the
default. -/
def getWeight (k : String) (l : List (String × ℚ)) : ℚ :=
  match mapGet k l with
  | none => 1
  | some w => if w = 0 then 1 else w

/-- The mutable state of `LearningEngine` in `core.ts`: per-strategy weights
and per-symbol, per-strategy weights. -/
structure LearningState where
  strategyWeights : List (String × ℚ)
  symbolPerformance : List (String × List (String × ℚ))
deriving DecidableEq, Repr, Inhabited

/-- The `LearningEngine` constructor: the four strategy weights start at 1.0
and the symbol map starts empty. -/
def initLearning : LearningState :=
  ⟨[("SMC", 1), ("ICT", 1), ("ORB", 1), ("TurtleSoup", 1)], []⟩

/-- Interface `TradeOutcome` from `core.ts` (`result: 'win' | 'loss'` as a
Bool, `true` = win). -/
structure TradeOutcome where
  result : Bool
  profit : ℚ
  closeTime : ℤ
deriving DecidableEq, Repr, Inhabited

/-- Interface `SignalHistory` from `core.ts`. -/
structure SignalHistory where
  signal : StrategySignal
  ticket : ℤ
  executionTime : ℤ
  outcome : Option TradeOutcome
deriving DecidableEq, Repr, Inhabited

/-- Update `LearningEngine.updateFromTrade` from `core.ts`: a win adds +0.05 to the
strategy weight and +0.03 to the (symbol, strategy) weight, a loss adds
−0.02 and −0.01; each new weight is clamped by
`Math.max(0.1, Math.min(2.0, ·))`.  A pending outcome is a no-op. -/
def updateFromTrade (st : LearningState) (history : SignalHistory) : LearningState :=
  match history.outcome with
  | none => st
  | some outcome =>
    let strategy := history.signal.strategy
    let symbol := history.signal.symbol
    let isWin := outcome.result
    let currentWeight := getWeight strategy st.strategyWeights
    let adjustment : ℚ := if isWin then mkRat 1 20 else mkRat (-1) 50
    let newWeight := jsMax (mkRat 1 10) (jsMin 2 (qAdd currentWeight adjustment))
    let weights' := mapSet strategy newWeight st.strategyWeights
    let symbolMap := (mapGet symbol st.symbolPerformance).getD []
    let symbolWeight := getWeight strategy symbolMap
    let symbolAdjustment : ℚ := if isWin then mkRat 3 100 else mkRat (-1) 100
    let newSymbolWeight := jsMax (mkRat 1 10) (jsMin 2 (qAdd symbolWeight symbolAdjustment))
    ⟨weights', mapSet symbol (mapSet strategy newSymbolWeight symbolMap)
      st.symbolPerformance⟩

/-- Stub `getMarketConditionWeight` from `core.ts`: the stub returns 1.0
(its `ohlc` argument is deliberately unused, as in the source). -/
def getMarketConditionWeight (_ohlc : List OHLC) : ℚ := 1

/-- The score `confidence × strategyWeight × symbolWeight ×
marketConditionWeight` computed inside `selectBestSignal`. -/
def score (st : LearningState) (symbol : String) (ohlc : List OHLC)
    (signal : StrategySignal) : ℚ :=
  qMul (qMul (qMul signal.confidence (getWeight signal.strategy st.strategyWeights))
    (getWeight signal.strategy ((mapGet symbol st.symbolPerformance).getD [])))
    (getMarketConditionWeight ohlc)

/-- The scoring loop of `selectBestSignal`: running best starts at
`(null, 0)` and is replaced only on a strictly greater score. -/
def selectLoop (st : LearningState) (symbol : String) (ohlc : List OHLC) :
    List StrategySignal → Option StrategySignal → ℚ → Option StrategySignal
  | [], best, _ => best
  | s :: rest, best, bestScore =>
    if bestScore < score st symbol ohlc s then
      selectLoop st symbol ohlc rest (some s) (score st symbol ohlc s)
    else selectLoop st symbol ohlc rest best bestScore

/-- Arbitration `LearningEngine.selectBestSignal` from `core.ts`: empty list → null,
singleton → its element outright, otherwise the scoring loop. -/
def selectBestSignal (st : LearningState) (signals : List StrategySignal)
    (symbol : String) (ohlc : List OHLC) : Option StrategySignal :=
  if signals.length = 0 then none
  else if signals.length = 1 then signals.head?
  else selectLoop st symbol ohlc signals none 0

end Learning

namespace Core

/-- JS `String.prototype.toUpperCase()` on the ASCII symbols the engine
handles: uppercase every character (structural form of `String.toUpper`,
which the kernel can evaluate). -/
def jsToUpper (s : String) : String := ⟨s.data.map Char.toUpper⟩

/-- Orchestrator `MarketMindCore.addSymbol`: `activeSymbols.add(symbol.toUpperCase())`. -/
def addSymbol (symbol : String) (activeSymbols : Finset String) : Finset String :=
  insert (jsToUpper symbol) activeSymbols

/-- Orchestrator `MarketMindCore.removeSymbol`:
`activeSymbols.delete(symbol.toUpperCase())`. -/
def removeSymbol (symbol : String) (activeSymbols : Finset String) : Finset String :=
  activeSymbols.erase (jsToUpper symbol)

end Core

/-! ### Concrete inputs used by the witnesses and counterexamples -/

namespace Examples

/-- A flat bar: all four prices equal `p`.  Flat bars form no order block
(`close = open`), no strict pivot, and no fair-value gap. -/
def flatBar (k : ℕ) (p : ℚ) : OHLC := ⟨k, p, p, p, p, 0⟩

/-- A 50-bar window that is flat at 100 except for a bullish fair-value gap
`(100, 102)` created at index 47 (`bar 46` high 100 < `bar 48` low 102 with
a bullish middle bar).  It contains no order block and no pivot. -/
def winFVG : List OHLC :=
  ((List.range 47).map fun k => flatBar k 100) ++
    [⟨47, 100, 104, 100, 104, 0⟩, ⟨48, 105, 105, 102, 102, 0⟩, flatBar 49 100]

/-- Market data whose bid 101 lies inside the `(100, 102)` gap of
`winFVG`. -/
def mdFVG : MarketData := ⟨"EURUSD", 101, 101, 0, 0, 0⟩

/-- The signal `analyze` emits on `winFVG` / bid 101: the fair-value-gap
fill candidate. -/
def sigFVG : StrategySignal :=
  ⟨"EURUSD", .BUY, mkRat 3 4, 101, 99, 105, SMC.smcName, 0⟩

/-- A 50-bar window with both a bullish order block at index 20
(`open 100, high 102, low 98, close 101.5`, followed by two closes above
102) and a bullish fair-value gap `(100, 103)` at the same index
(`bar 19` high 100 < `bar 21` low 103).  Bid 101 matches both categories. -/
def winMulti : List OHLC :=
  ((List.range 20).map fun k => flatBar k 100) ++
    [⟨20, 100, 102, 98, mkRat 203 2, 0⟩, flatBar 21 103, flatBar 22 103] ++
    ((List.range' 23 27).map fun k => flatBar k 100)

/-- Market data whose bid 101 lies in the order block and in the gap of
`winMulti`. -/
def mdMulti : MarketData := ⟨"EURUSD", 101, 101, 0, 0, 0⟩

/-- The order-block candidate of `winMulti` (strength 62), stamped. -/
def sigOB : StrategySignal :=
  ⟨"EURUSD", .BUY, mkRat 31 50, 101, mkRat 486 5, 107, SMC.smcName, 0⟩

/-- The fair-value-gap candidate of `winMulti`, stamped. -/
def sigGapMulti : StrategySignal :=
  ⟨"EURUSD", .BUY, mkRat 3 4, 101, mkRat 197 2, 107, SMC.smcName, 0⟩

end Examples


/-! ### Helper lemmas -/

/-- Constant bridge: `mkRat` as a quotient of casts, for moving concrete constants between
the computable and the algebraic view. -/
theorem mkRat_eq_div_cast (n : ℤ) (d : ℕ) : (mkRat n d : ℚ) = (n : ℚ) / (d : ℚ) := by
  rw [Rat.mkRat_eq_divInt, Rat.divInt_eq_div]
  norm_num

/-- A `tryCand` result is either the validated candidate itself or comes
from the rest of the chain. -/
theorem tryCand_eq_some {c rest : Option StrategySignal} {s : StrategySignal}
    (h : SMC.tryCand c rest = some s) :
    (c = some s ∧ SMC.validateSignal s = true) ∨ rest = some s := by
  cases c with
  | none => exact Or.inr h
  | some t =>
    simp only [SMC.tryCand] at h
    by_cases hv : SMC.validateSignal t
    · rw [if_pos hv] at h
      cases h
      exact Or.inl ⟨rfl, hv⟩
    · rw [if_neg hv] at h
      exact Or.inr h

/-- Every signal emitted by `analyze` passed `validateSignal`, and is the
stamped form of one of the three category candidates. -/
theorem analyze_emits_validated (st : SMC.SMCState) (isActive : Bool) (sym : String)
    (ohlc : List OHLC) (md : MarketData) (now : ℤ) (s : StrategySignal)
    (h : (SMC.analyze st isActive sym ohlc md now).1 = some s) :
    SMC.validateSignal s = true ∧
    ((SMC.stamp sym now) <$> SMC.checkOrderBlockEntry (SMC.updateOrderBlocks ohlc) md.bid
        = some s ∨
     (SMC.stamp sym now) <$>
        SMC.checkLiquidityGrabReversal (SMC.updateLiquidityZones ohlc) md.bid ohlc = some s ∨
     (SMC.stamp sym now) <$> SMC.checkFairValueGapFill (SMC.updateFairValueGaps ohlc) md.bid
        = some s) := by
  unfold SMC.analyze at h
  by_cases hg : ¬isActive = true ∨ ohlc.length < 50
  · rw [if_pos hg] at h
    simp at h
  · rw [if_neg hg] at h
    simp only at h
    rcases tryCand_eq_some h with ⟨hc, hv⟩ | h2
    · exact ⟨hv, Or.inl hc⟩
    · rcases tryCand_eq_some h2 with ⟨hc, hv⟩ | h3
      · exact ⟨hv, Or.inr (Or.inl hc)⟩
      · rcases tryCand_eq_some h3 with ⟨hc, hv⟩ | h4
        · exact ⟨hv, Or.inr (Or.inr hc)⟩
        · exact absurd h4 (by simp)

/-- Unfolding of a successful `validateSignal` into its three conditions,
in the algebraic view. -/
theorem validateSignal_spec {s : StrategySignal} (h : SMC.validateSignal s = true) :
    s.symbol ≠ "" ∧ 1/2 ≤ s.confidence ∧
    3 * |s.entry - s.stopLoss| ≤ 2 * |s.takeProfit - s.entry| := by
  unfold SMC.validateSignal at h
  simp only [Bool.and_eq_true, decide_eq_true_eq] at h
  obtain ⟨⟨h1, h2⟩, h3⟩ := h
  rw [not_lt] at h2 h3
  rw [mkRat_eq_div_cast] at h2
  rw [qMul_eq, qMul_eq, qSub_eq, qSub_eq, jsAbs_eq, jsAbs_eq] at h3
  norm_num at h2 ⊢
  exact ⟨h1, h2, h3⟩

/-- Claim C2.  For every strategy state, activity flag, symbol, bar window,
market data, and timestamp for which `analyze` returns a signal, that
signal satisfies `confidence ≥ 0.5` and the reward:risk bound
`|takeProfit − entry| ≥ 1.5 · |entry − stopLoss|` (the `reward:risk ≥ 1.5`
inequality with the denominator cleared, which is exactly the JS gate —
also at a zero stop distance, where the float ratio is `Infinity`); any
candidate violating either bound is rejected by `validateSignal` and never
emitted. -/
theorem analyze_signal_bounds (st : SMC.SMCState) (isActive : Bool) (sym : String)
    (ohlc : List OHLC) (md : MarketData) (now : ℤ) (s : StrategySignal)
    (h : (SMC.analyze st isActive sym ohlc md now).1 = some s) :
    1/2 ≤ s.confidence ∧
    3 * |s.entry - s.stopLoss| ≤ 2 * |s.takeProfit - s.entry| := by
  obtain ⟨hv, -⟩ := analyze_emits_validated st isActive sym ohlc md now s h
  obtain ⟨-, h2, h3⟩ := validateSignal_spec hv
  exact ⟨h2, h3⟩

/-- Witness for claim C2 at the concrete window `winFVG`: `analyze` emits the
fair-value-gap signal and the bounds hold for it. -/
theorem analyze_signal_bounds_witness :
    (SMC.analyze SMC.initState true "EURUSD" Examples.winFVG Examples.mdFVG 0).1 =
      some Examples.sigFVG ∧
    (1/2 ≤ Examples.sigFVG.confidence ∧
      3 * |Examples.sigFVG.entry - Examples.sigFVG.stopLoss| ≤
        2 * |Examples.sigFVG.takeProfit - Examples.sigFVG.entry|) :=
  ⟨by decide, analyze_signal_bounds SMC.initState true "EURUSD" Examples.winFVG
    Examples.mdFVG 0 Examples.sigFVG (by decide)⟩

/-- Rewriting `adjustTakeProfit` into the algebraic view: the adjustment fires exactly
when the stop distance is positive and the reward distance is below
`minRiskReward ×` the stop distance. -/
theorem adjustTakeProfit_algebraic (rp : RiskParams) (sig : StrategySignal) :
    Risk.adjustTakeProfit rp sig =
      if 0 < |sig.entry - sig.stopLoss| ∧
          |sig.takeProfit - sig.entry| < rp.minRiskReward * |sig.entry - sig.stopLoss| then
        (if sig.action = .BUY then
          sig.entry + |sig.entry - sig.stopLoss| * rp.minRiskReward
        else sig.entry - |sig.entry - sig.stopLoss| * rp.minRiskReward)
      else sig.takeProfit := by
  unfold Risk.adjustTakeProfit
  simp only [jsAbs_eq, qSub_eq, qMul_eq, qAdd_eq]

/-- Claim C7.  Whenever the risk manager adjusts a take profit (the computed
reward:risk is below `minRiskReward` at a positive stop distance), the
adjusted target sits exactly at reward:risk `= minRiskReward`, moved up for
BUY and down for SELL, while `adjustStopLoss` leaves the stop untouched;
a signal already at or above `minRiskReward` keeps its target. -/
theorem adjustTakeProfit_exact (rp : RiskParams) (sig : StrategySignal)
    (hmin : 0 < rp.minRiskReward) :
    (0 < |sig.entry - sig.stopLoss| →
      |sig.takeProfit - sig.entry| < rp.minRiskReward * |sig.entry - sig.stopLoss| →
      |Risk.adjustTakeProfit rp sig - sig.entry| / |sig.entry - sig.stopLoss|
          = rp.minRiskReward ∧
        (sig.action = .BUY → sig.entry < Risk.adjustTakeProfit rp sig) ∧
        (sig.action = .SELL → Risk.adjustTakeProfit rp sig < sig.entry) ∧
        Risk.adjustStopLoss sig = sig.stopLoss) ∧
    (rp.minRiskReward * |sig.entry - sig.stopLoss| ≤ |sig.takeProfit - sig.entry| →
      Risk.adjustTakeProfit rp sig = sig.takeProfit) := by
  rw [adjustTakeProfit_algebraic]
  constructor
  · intro hd hr
    rw [if_pos ⟨hd, hr⟩]
    have hdne : |sig.entry - sig.stopLoss| ≠ 0 := ne_of_gt hd
    have hprod : 0 < |sig.entry - sig.stopLoss| * rp.minRiskReward := mul_pos hd hmin
    refine ⟨?_, ?_, ?_, rfl⟩
    · by_cases hb : sig.action = .BUY
      · rw [if_pos hb, add_sub_cancel_left,
          abs_of_nonneg (le_of_lt hprod), mul_div_cancel_left₀ _ hdne]
      · rw [if_neg hb, sub_sub_cancel_left, abs_neg,
          abs_of_nonneg (le_of_lt hprod), mul_div_cancel_left₀ _ hdne]
    · intro hb
      rw [if_pos hb]
      exact lt_add_of_pos_right _ hprod
    · intro hb
      rw [if_neg (by rw [hb]; intro hc; cases hc)]
      exact sub_lt_self _ hprod
  · intro hge
    by_cases hd : 0 < |sig.entry - sig.stopLoss|
    · rw [if_neg]
      rintro ⟨-, h2⟩
      exact absurd h2 (not_lt.mpr hge)
    · rw [if_neg]
      rintro ⟨h1, -⟩
      exact hd h1

/-- Risk parameters of the exported `riskManager` singleton
(`maxRiskPerTrade 2%, maxDailyLoss 6%, maxOpenPositions 5,
minRiskReward 1.5, maxSpread 3`). -/
def Examples.rpEx : RiskParams := ⟨2, 6, 5, mkRat 3 2, 3, true⟩

/-- A BUY signal with entry 1.1000, stop 1.0900 and a too-close target
1.1050 (reward:risk 0.5 < 1.5). -/
def Examples.sigAdj : StrategySignal :=
  ⟨"EURUSD", .BUY, 1, mkRat 11 10, mkRat 109 100, mkRat 221 200, "SMC", 0⟩

/-- Witness for claim C7: on `sigAdj` the take profit is extended to
reward:risk exactly 1.5 (target 1.1150) with the stop untouched. -/
theorem adjustTakeProfit_exact_witness :
    |Risk.adjustTakeProfit Examples.rpEx Examples.sigAdj - Examples.sigAdj.entry| /
        |Examples.sigAdj.entry - Examples.sigAdj.stopLoss| =
      Examples.rpEx.minRiskReward ∧
    Risk.adjustStopLoss Examples.sigAdj = Examples.sigAdj.stopLoss ∧
    Examples.sigAdj.entry < Risk.adjustTakeProfit Examples.rpEx Examples.sigAdj := by
  have h :=
    (adjustTakeProfit_exact Examples.rpEx Examples.sigAdj (by decide)).1
      (by simp only [← jsAbs_eq, ← qSub_eq]; decide)
      (by simp only [← jsAbs_eq, ← qSub_eq, ← qMul_eq]; decide)
  exact ⟨h.1, h.2.2.2, h.2.1 rfl⟩

/-- The claim-C9 scenario position: entry 1.1000, stop 1.0950, current
price 1.1080 (winning long, 80-pip profit vs 50-pip risk). -/
def Examples.posWin : Position :=
  ⟨1, "EURUSD", .BUY, 1, mkRat 11 10, mkRat 1108 1000, 80, mkRat 1095 1000, mkRat 112 100⟩

/-- The same position losing: current price 1.0920, 80 pips under water
(`|loss| = 0.008 ≥ 1.5 × 0.005`). -/
def Examples.posLosing : Position :=
  ⟨1, "EURUSD", .BUY, 1, mkRat 11 10, mkRat 1092 1000, -80, mkRat 1095 1000, mkRat 112 100⟩

/-- Claim C9.  Evaluation of `shouldMoveToBreakEven` at the claim's inputs:
the winning scenario moves exactly once (after `moveToBreakEven` the stop
equals the entry and the check is false — idempotence), but the same
position *losing* 80 pips also triggers the move, because the code compares
`Math.abs(currentPrice - openPrice)` instead of the signed profit —
contradicting its own comments (`Move stop loss to break-even when in
profit`) and the claim's "a losing position never triggers". -/
theorem shouldMoveToBreakEven_abs_bug :
    Risk.shouldMoveToBreakEven Examples.posWin = true ∧
    Risk.moveToBreakEven Examples.posWin =
      { Examples.posWin with stopLoss := Examples.posWin.openPrice } ∧
    Risk.shouldMoveToBreakEven (Risk.moveToBreakEven Examples.posWin) = false ∧
    Risk.shouldMoveToBreakEven Examples.posLosing = true ∧
    Examples.posLosing.currentPrice < Examples.posLosing.openPrice := by
  refine ⟨by decide, rfl, by decide, by decide, by decide⟩

/-- Claim C10.  `addSymbol` inserts the uppercase form, adding any
letter-case variant of the same symbol yields one and the same entry, and
`removeSymbol` with any case variant removes exactly that entry — a
round-trip back to the prior set whenever the symbol was not already
monitored. -/
theorem addRemoveSymbol_roundTrip (S : Finset String) (s t : String)
    (h : Core.jsToUpper s = Core.jsToUpper t) :
    Core.addSymbol s S = insert (Core.jsToUpper s) S ∧
    Core.addSymbol t (Core.addSymbol s S) = Core.addSymbol s S ∧
    Core.removeSymbol t (Core.addSymbol s S) = S.erase (Core.jsToUpper s) ∧
    (Core.jsToUpper s ∉ S → Core.removeSymbol t (Core.addSymbol s S) = S) := by
  refine ⟨rfl, ?_, ?_, ?_⟩
  · unfold Core.addSymbol
    rw [← h, Finset.insert_idem]
  · unfold Core.addSymbol Core.removeSymbol
    rw [← h, Finset.erase_insert_eq_erase]
  · intro hnot
    unfold Core.addSymbol Core.removeSymbol
    rw [← h, Finset.erase_insert_eq_erase, Finset.erase_eq_of_not_mem hnot]

/-- Witness for claim C10: `addSymbol "eurusd"` then `removeSymbol "EURUSD"`
on the singleton set `{GBPUSD}` is the identity. -/
theorem addRemoveSymbol_roundTrip_witness :
    Core.jsToUpper "eurusd" = "EURUSD" ∧
    Core.removeSymbol "EURUSD" (Core.addSymbol "eurusd" {"GBPUSD"}) =
      ({"GBPUSD"} : Finset String) :=
  ⟨by decide, (addRemoveSymbol_roundTrip {"GBPUSD"} "eurusd" "EURUSD" (by decide)).2.2.2
    (by decide)⟩

/-- Membership after a `mapSet`: the new binding or an old one. -/
theorem mapSet_mem {b : Type} {k : String} {v : b} {l : List (String × b)}
    {p : String × b} (h : p ∈ Learning.mapSet k v l) : p = (k, v) ∨ p ∈ l := by
  induction l with
  | nil => simpa [Learning.mapSet] using h
  | cons q rest ih =>
    simp only [Learning.mapSet] at h
    by_cases hk : q.1 = k
    · rw [if_pos hk] at h
      rcases List.mem_cons.mp h with h1 | h2
      · exact Or.inl h1
      · exact Or.inr (List.mem_cons_of_mem _ h2)
    · rw [if_neg hk] at h
      rcases List.mem_cons.mp h with h1 | h2
      · exact Or.inr (h1 ▸ List.mem_cons_self _ _)
      · rcases ih h2 with h3 | h4
        · exact Or.inl h3
        · exact Or.inr (List.mem_cons_of_mem _ h4)

/-- A successful `mapGet` comes from a stored binding. -/
theorem mapGet_mem {b : Type} {k : String} {l : List (String × b)} {v : b}
    (h : Learning.mapGet k l = some v) : (k, v) ∈ l := by
  induction l with
  | nil => simp [Learning.mapGet] at h
  | cons q rest ih =>
    simp only [Learning.mapGet] at h
    by_cases hk : q.1 = k
    · rw [if_pos hk] at h
      injection h with h2
      have hq : (k, v) = q := by
        obtain ⟨q1, q2⟩ := q
        simp only at hk h2
        rw [hk, h2]
      exact List.mem_cons.mpr (Or.inl hq)
    · rw [if_neg hk] at h
      exact List.mem_cons_of_mem _ (ih h)

/-- The clamp `Math.max(0.1, Math.min(2.0, x))` lands in `[0.1, 2]`. -/
theorem clamp_in_range (x : ℚ) :
    1/10 ≤ jsMax (mkRat 1 10) (jsMin 2 x) ∧ jsMax (mkRat 1 10) (jsMin 2 x) ≤ 2 := by
  rw [jsMax_eq, jsMin_eq, show (mkRat 1 10 : ℚ) = 1/10 by
    rw [mkRat_eq_div_cast]; norm_num]
  exact ⟨le_max_left _ _, max_le (by norm_num) (min_le_left _ _)⟩

/-- All weights a learning state stores lie in `[0.1, 2]`. -/
def weightsInRange (st : Learning.LearningState) : Prop :=
  (∀ p ∈ st.strategyWeights, 1/10 ≤ p.2 ∧ p.2 ≤ 2) ∧
  (∀ q ∈ st.symbolPerformance, ∀ p ∈ q.2, 1/10 ≤ p.2 ∧ p.2 ≤ 2)

/-- One `updateFromTrade` step preserves the weight range invariant. -/
theorem updateFromTrade_in_range {st : Learning.LearningState}
    (h : weightsInRange st) (trade : Learning.SignalHistory) :
    weightsInRange (Learning.updateFromTrade st trade) := by
  obtain ⟨h1, h2⟩ := h
  unfold Learning.updateFromTrade
  cases htr : trade.outcome with
  | none => exact ⟨h1, h2⟩
  | some o =>
    simp only
    constructor
    · intro p hp
      rcases mapSet_mem hp with rfl | hold
      · exact clamp_in_range _
      · exact h1 p hold
    · intro q hq p hp
      rcases mapSet_mem hq with rfl | hold
      · rcases mapSet_mem hp with rfl | hinner
        · exact clamp_in_range _
        · cases hget : Learning.mapGet trade.signal.symbol st.symbolPerformance with
          | none => rw [hget] at hinner; simp at hinner
          | some m =>
            rw [hget] at hinner
            exact h2 _ (mapGet_mem hget) p hinner
      · exact h2 q hold p hp

/-- Claim C3.  For every finite sequence of trade-outcome updates starting
from the initial weights of 1.0, every stored per-strategy weight and every
stored (symbol, strategy) weight remains within `[0.1, 2.0]` (each win adds
+0.05 / +0.03, each loss adds −0.02 / −0.01 before the clamp — see
`Learning.updateFromTrade`). -/
theorem learning_weights_in_range (trades : List Learning.SignalHistory) :
    (∀ p ∈ (trades.foldl Learning.updateFromTrade Learning.initLearning).strategyWeights,
      1/10 ≤ p.2 ∧ p.2 ≤ 2) ∧
    (∀ q ∈ (trades.foldl Learning.updateFromTrade Learning.initLearning).symbolPerformance,
      ∀ p ∈ q.2, 1/10 ≤ p.2 ∧ p.2 ≤ 2) := by
  have hinit : weightsInRange Learning.initLearning := by
    constructor
    · intro p hp
      fin_cases hp <;> norm_num
    · intro q hq
      simp [Learning.initLearning] at hq
  have hall : ∀ st : Learning.LearningState, weightsInRange st →
      weightsInRange (trades.foldl Learning.updateFromTrade st) := by
    induction trades with
    | nil => intro st h; exact h
    | cons t rest ih =>
      intro st h
      exact ih _ (updateFromTrade_in_range h t)
  exact hall Learning.initLearning hinit

/-- A completed winning SMC trade on EURUSD. -/
def Examples.winTrade : Learning.SignalHistory :=
  ⟨⟨"EURUSD", .BUY, 1, 0, 0, 0, "SMC", 0⟩, 1, 0, some ⟨true, 100, 0⟩⟩

/-- Witness for claim C3: after one winning SMC trade the stored strategy
weight is 1.05 and the stored EURUSD/SMC weight is 1.03 — both inside
`[0.1, 2]`. -/
theorem learning_weights_in_range_witness :
    (("SMC", mkRat 21 20) ∈
      ([Examples.winTrade].foldl Learning.updateFromTrade
        Learning.initLearning).strategyWeights ∧
      1/10 ≤ (mkRat 21 20 : ℚ) ∧ (mkRat 21 20 : ℚ) ≤ 2) ∧
    (("EURUSD", [("SMC", mkRat 103 100)]) ∈
      ([Examples.winTrade].foldl Learning.updateFromTrade
        Learning.initLearning).symbolPerformance ∧
      1/10 ≤ (mkRat 103 100 : ℚ) ∧ (mkRat 103 100 : ℚ) ≤ 2) := by
  refine ⟨⟨by decide, ?_⟩, ⟨by decide, ?_⟩⟩
  · exact (learning_weights_in_range [Examples.winTrade]).1
      ("SMC", mkRat 21 20) (by decide)
  · exact (learning_weights_in_range [Examples.winTrade]).2
      ("EURUSD", [("SMC", mkRat 103 100)]) (by decide) ("SMC", mkRat 103 100) (by decide)

/-- The daily-loss check in the algebraic view: on a breach it reports
failure and sets the sticky flag. -/
theorem checkDailyLossLimit_breach (rp : RiskParams) (st : Risk.RiskState)
    (acct : AccountInfo)
    (hloss : st.dailyStartBalance * rp.maxDailyLoss / 100 ≤
      st.dailyStartBalance - acct.balance) :
    Risk.checkDailyLossLimit rp st acct = (false, { st with isTradeBlocked := true }) := by
  unfold Risk.checkDailyLossLimit
  rw [if_pos]
  show qDiv (qMul st.dailyStartBalance rp.maxDailyLoss) 100 ≤
    qSub st.dailyStartBalance acct.balance
  rw [qDiv_eq, qMul_eq, qSub_eq]
  exact hloss

/-- Claim C4.  (a) If the daily-loss check observes a balance drop of at
least `dayStartBalance × maxDailyLoss / 100`, `validateTrade` rejects and
sets `isTradeBlocked`.  (b) While blocked, every `validateTrade` call —
whatever the signal and environment — returns `valid = false` with the
blocked reason and leaves the state unchanged.  (c) The flag survives every
sequence of intra-day events (validations with arbitrary inputs, including
profitable balance recoveries, and daily-PL refreshes).  (d) Only the
explicit `resetDailyTracking` clears it. -/
theorem daily_loss_blocking (rp : RiskParams) (st : Risk.RiskState) (env : Risk.RMEnv)
    (acct : AccountInfo) (sig : StrategySignal) :
    (st.isTradeBlocked = false → env.accountInfo = some acct →
      st.dailyStartBalance * rp.maxDailyLoss / 100 ≤ st.dailyStartBalance - acct.balance →
      (Risk.validateTrade rp st env sig).1.isValid = false ∧
        (Risk.validateTrade rp st env sig).2.isTradeBlocked = true) ∧
    (st.isTradeBlocked = true →
      Risk.validateTrade rp st env sig =
        (⟨false, .tradingBlocked, none, none⟩, st)) ∧
    (st.isTradeBlocked = true → ∀ evts : List Risk.RMEvent,
      (evts.foldl (Risk.rmStep rp) st).isTradeBlocked = true) ∧
    (∀ a, (Risk.resetDailyTracking a st).isTradeBlocked = false) := by
  refine ⟨?_, ?_, ?_, ?_⟩
  · intro hb hacct hloss
    have hc := checkDailyLossLimit_breach rp st acct hloss
    simp [Risk.validateTrade, hb, hacct, hc]
  · intro hb
    unfold Risk.validateTrade
    rw [hb]
    simp
  · intro hb evts
    have hstep : ∀ s : Risk.RiskState, s.isTradeBlocked = true →
        ∀ e, (Risk.rmStep rp s e).isTradeBlocked = true := by
      intro s hs e
      cases e with
      | validate env2 sig2 =>
        unfold Risk.rmStep Risk.validateTrade
        rw [hs]
        simpa using hs
      | updatePL a =>
        unfold Risk.rmStep Risk.updateDailyPL
        cases a with
        | none => exact hs
        | some a2 => exact hs
    have hfold : ∀ s : Risk.RiskState, s.isTradeBlocked = true →
        (evts.foldl (Risk.rmStep rp) s).isTradeBlocked = true := by
      induction evts with
      | nil => intro s hs; exact hs
      | cons e rest ih => intro s hs; exact ih _ (hstep s hs e)
    exact hfold st hb
  · intro a
    cases a with
    | none => rfl
    | some a2 => rfl

/-- Account snapshot after the 6% daily drawdown (balance 9,400 from a
10,000 day start). -/
def Examples.acctDown : AccountInfo := ⟨9400, 9400⟩

/-- Environment seen by `validateTrade` at the drawn-down balance. -/
def Examples.envDown : Risk.RMEnv := ⟨some Examples.acctDown, [], none, none⟩

/-- Environment with a recovered, profitable balance (12,000). -/
def Examples.envUp : Risk.RMEnv := ⟨some ⟨12000, 12000⟩, [], none, none⟩

/-- Witness for claim C4 at `dayStartBalance = 10,000`, `maxDailyLoss = 6%`,
balance 9,400: the call rejects and blocks; from the blocked state every
later call rejects with the blocked reason, and neither a profitable
balance refresh nor a validation at a recovered balance clears the flag. -/
theorem daily_loss_blocking_witness :
    (Risk.validateTrade Examples.rpEx ⟨10000, 0, false⟩ Examples.envDown
        Examples.sigAdj).1.isValid = false ∧
    (Risk.validateTrade Examples.rpEx ⟨10000, 0, false⟩ Examples.envDown
        Examples.sigAdj).2.isTradeBlocked = true ∧
    Risk.validateTrade Examples.rpEx ⟨10000, 0, true⟩ Examples.envUp Examples.sigAdj =
      (⟨false, .tradingBlocked, none, none⟩, ⟨10000, 0, true⟩) ∧
    ([Risk.RMEvent.updatePL (some ⟨12000, 12000⟩),
      Risk.RMEvent.validate Examples.envUp Examples.sigAdj].foldl
        (Risk.rmStep Examples.rpEx) ⟨10000, 0, true⟩).isTradeBlocked = true := by
  have ha := (daily_loss_blocking Examples.rpEx ⟨10000, 0, false⟩ Examples.envDown
    Examples.acctDown Examples.sigAdj).1 rfl rfl
    (by simp only [← qMul_eq, ← qDiv_eq, ← qSub_eq]; decide)
  have hb := (daily_loss_blocking Examples.rpEx ⟨10000, 0, true⟩ Examples.envUp
    Examples.acctDown Examples.sigAdj).2.1 rfl
  have hc := (daily_loss_blocking Examples.rpEx ⟨10000, 0, true⟩ Examples.envUp
    Examples.acctDown Examples.sigAdj).2.2.1 rfl
    [Risk.RMEvent.updatePL (some ⟨12000, 12000⟩),
     Risk.RMEvent.validate Examples.envUp Examples.sigAdj]
  exact ⟨ha.1, ha.2, hb, hc⟩

/-- If no remaining candidate beats the running best score, the scoring
loop keeps the running best. -/
theorem selectLoop_of_all_le (st : Learning.LearningState) (sym : String)
    (ohlc : List OHLC) :
    ∀ (l : List StrategySignal) (best : Option StrategySignal) (bs : ℚ),
      (∀ x ∈ l, Learning.score st sym ohlc x ≤ bs) →
      Learning.selectLoop st sym ohlc l best bs = best := by
  intro l
  induction l with
  | nil => intro best bs _; rfl
  | cons a rest ih =>
    intro best bs h
    unfold Learning.selectLoop
    rw [if_neg (not_lt.mpr (h a (List.mem_cons_self _ _)))]
    exact ih best bs fun x hx => h x (List.mem_cons_of_mem _ hx)

/-- If some candidate beats the initial score, the scoring loop returns the
first candidate attaining the maximal score: every earlier candidate scores
strictly below it and no candidate scores above it. -/
theorem selectLoop_first_max (st : Learning.LearningState) (sym : String)
    (ohlc : List OHLC) :
    ∀ (l : List StrategySignal) (best : Option StrategySignal) (bs : ℚ),
      (∃ x ∈ l, bs < Learning.score st sym ohlc x) →
      ∃ i : ℕ, ∃ hi : i < l.length,
        Learning.selectLoop st sym ohlc l best bs = some (l.get ⟨i, hi⟩) ∧
        bs < Learning.score st sym ohlc (l.get ⟨i, hi⟩) ∧
        (∀ j, ∀ hj : j < l.length, j < i →
          Learning.score st sym ohlc (l.get ⟨j, hj⟩) <
            Learning.score st sym ohlc (l.get ⟨i, hi⟩)) ∧
        (∀ j, ∀ hj : j < l.length,
          Learning.score st sym ohlc (l.get ⟨j, hj⟩) ≤
            Learning.score st sym ohlc (l.get ⟨i, hi⟩)) := by
  intro l
  induction l with
  | nil =>
    rintro best bs ⟨x, hx, -⟩
    exact absurd hx (List.not_mem_nil x)
  | cons a rest ih =>
    intro best bs hex
    unfold Learning.selectLoop
    by_cases ha : bs < Learning.score st sym ohlc a
    · rw [if_pos ha]
      by_cases hrest : ∃ x ∈ rest, Learning.score st sym ohlc a < Learning.score st sym ohlc x
      · obtain ⟨i, hi, heq, hgt, hfirst, hmax⟩ := ih (some a) (Learning.score st sym ohlc a) hrest
        refine ⟨i + 1, Nat.succ_lt_succ hi, heq, lt_trans ha hgt, ?_, ?_⟩
        · intro j hj hji
          cases j with
          | zero => exact hgt
          | succ j2 => exact hfirst j2 (Nat.lt_of_succ_lt_succ hj) (Nat.lt_of_succ_lt_succ hji)
        · intro j hj
          cases j with
          | zero => exact le_of_lt hgt
          | succ j2 => exact hmax j2 (Nat.lt_of_succ_lt_succ hj)
      · push_neg at hrest
        rw [selectLoop_of_all_le st sym ohlc rest (some a) (Learning.score st sym ohlc a) hrest]
        refine ⟨0, Nat.succ_pos _, rfl, ha, ?_, ?_⟩
        · intro j hj hj0
          omega
        · intro j hj
          cases j with
          | zero => exact le_refl _
          | succ j2 => exact hrest _ (rest.get_mem j2 (Nat.lt_of_succ_lt_succ hj))
    · rw [if_neg ha]
      have hrest : ∃ x ∈ rest, bs < Learning.score st sym ohlc x := by
        obtain ⟨x, hx, hbs⟩ := hex
        rcases List.mem_cons.mp hx with rfl | hx2
        · exact absurd hbs ha
        · exact ⟨x, hx2, hbs⟩
      obtain ⟨i, hi, heq, hgt, hfirst, hmax⟩ := ih best bs hrest
      refine ⟨i + 1, Nat.succ_lt_succ hi, heq, hgt, ?_, ?_⟩
      · intro j hj hji
        cases j with
        | zero => exact lt_of_le_of_lt (not_lt.mp ha) hgt
        | succ j2 => exact hfirst j2 (Nat.lt_of_succ_lt_succ hj) (Nat.lt_of_succ_lt_succ hji)
      · intro j hj
        cases j with
        | zero => exact le_of_lt (lt_of_le_of_lt (not_lt.mp ha) hgt)
        | succ j2 => exact hmax j2 (Nat.lt_of_succ_lt_succ hj)

/-- Claim C8, amended.  With exactly one candidate, `selectBestSignal`
returns it outright.  With two or more candidates, provided some candidate
has a positive score (true of every real signal: confidence ≥ 0.5 and
positive weights), the earliest candidate of maximal score is returned —
ties are broken by first-seen order; when every score is ≤ 0 (only possible
at zero confidence) the loop returns no candidate at all, see the
counterexample. -/
theorem selectBestSignal_amended (st : Learning.LearningState) (sym : String)
    (ohlc : List OHLC) (signals : List StrategySignal) :
    (signals.length = 1 → Learning.selectBestSignal st signals sym ohlc = signals.head?) ∧
    (2 ≤ signals.length →
      (∃ x ∈ signals, 0 < Learning.score st sym ohlc x) →
      ∃ i : ℕ, ∃ hi : i < signals.length,
        Learning.selectBestSignal st signals sym ohlc = some (signals.get ⟨i, hi⟩) ∧
        (∀ j, ∀ hj : j < signals.length, j < i →
          Learning.score st sym ohlc (signals.get ⟨j, hj⟩) <
            Learning.score st sym ohlc (signals.get ⟨i, hi⟩)) ∧
        (∀ j, ∀ hj : j < signals.length,
          Learning.score st sym ohlc (signals.get ⟨j, hj⟩) ≤
            Learning.score st sym ohlc (signals.get ⟨i, hi⟩))) := by
  constructor
  · intro h1
    unfold Learning.selectBestSignal
    rw [if_neg (by omega), if_pos h1]
  · intro h2 hex
    unfold Learning.selectBestSignal
    rw [if_neg (by omega), if_neg (by omega)]
    obtain ⟨i, hi, heq, -, hfirst, hmax⟩ := selectLoop_first_max st sym ohlc signals none 0 hex
    exact ⟨i, hi, heq, hfirst, hmax⟩

/-- Candidate with zero confidence from strategy A. -/
def Examples.sigZeroA : StrategySignal := ⟨"EURUSD", .BUY, 0, 1, 1, 1, "A", 0⟩

/-- Candidate with zero confidence from strategy B. -/
def Examples.sigZeroB : StrategySignal := ⟨"EURUSD", .SELL, 0, 1, 1, 1, "B", 0⟩

/-- Counterexample to claim C8 as stated: with two candidates both scoring 0
(zero confidence), the loop's `>` against the initial best score 0 never
fires and `selectBestSignal` returns `null` — not the maximum-score
candidate, and not the first-seen one. -/
theorem selectBestSignal_zero_counterexample :
    [Examples.sigZeroA, Examples.sigZeroB].length = 2 ∧
    Learning.selectBestSignal Learning.initLearning
      [Examples.sigZeroA, Examples.sigZeroB] "EURUSD" [] = none :=
  ⟨rfl, by decide⟩

/-- The claim's tie scenario: strategy weights `A ↦ 1.2`, `B ↦ 1.0 × 0.8`,
no symbol weights. -/
def Examples.stTie : Learning.LearningState :=
  ⟨[("A", mkRat 6 5), ("B", mkRat 4 5)], []⟩

/-- Candidate from strategy A with confidence 0.6 (score 0.72). -/
def Examples.sigA : StrategySignal := ⟨"EURUSD", .BUY, mkRat 3 5, 1, 1, 1, "A", 0⟩

/-- Candidate from strategy B with confidence 0.9 (score 0.72). -/
def Examples.sigB : StrategySignal := ⟨"EURUSD", .SELL, mkRat 9 10, 1, 1, 1, "B", 0⟩

/-- Witness for claim C8, amended, at the claim's scenario: both scores equal
0.72 and the first-generated candidate A is selected. -/
theorem selectBestSignal_amended_witness :
    Learning.selectBestSignal Examples.stTie [Examples.sigA, Examples.sigB] "EURUSD" [] =
      some Examples.sigA ∧
    Learning.score Examples.stTie "EURUSD" [] Examples.sigA =
      Learning.score Examples.stTie "EURUSD" [] Examples.sigB := by
  constructor
  · obtain ⟨i, hi, heq, hfirst, hmax⟩ :=
      (selectBestSignal_amended Examples.stTie "EURUSD" [] [Examples.sigA, Examples.sigB]).2
        (by decide) ⟨Examples.sigA, by decide, by decide⟩
    rcases i with - | - | i
    · exact heq
    · have h01 : Learning.score Examples.stTie "EURUSD" [] Examples.sigA <
          Learning.score Examples.stTie "EURUSD" [] Examples.sigB :=
        hfirst 0 (by decide) (by omega)
      exact absurd h01 (by decide)
    · simp at hi
      omega
  · decide

/-- The unstamped order-block candidate of `winMulti`. -/
def Examples.rawOB : StrategySignal :=
  ⟨"", .BUY, mkRat 31 50, 101, mkRat 486 5, 107, SMC.smcName, 0⟩

/-- The unstamped fair-value-gap candidate of `winMulti`. -/
def Examples.rawGap : StrategySignal :=
  ⟨"", .BUY, mkRat 3 4, 101, mkRat 197 2, 107, SMC.smcName, 0⟩

/-- Claim C5, amended.  `analyze` emits at most one signal per cycle
overall: the categories are tried in the fixed order order-block,
liquidity-grab, fair-value-gap, and the first candidate that passes
validation is the single emitted signal (a candidate that fails validation
falls through to the next category).  In particular (a) a validated
order-block candidate preempts the other two categories, and (b) whatever
is emitted is one validated candidate of the three. -/
theorem analyze_priority (st : SMC.SMCState) (sym : String) (ohlc : List OHLC)
    (md : MarketData) (now : ℤ) :
    (¬ohlc.length < 50 →
      ∀ s, SMC.checkOrderBlockEntry (SMC.updateOrderBlocks ohlc) md.bid = some s →
        SMC.validateSignal (SMC.stamp sym now s) = true →
        (SMC.analyze st true sym ohlc md now).1 = some (SMC.stamp sym now s)) ∧
    (∀ s, (SMC.analyze st true sym ohlc md now).1 = some s →
      SMC.validateSignal s = true ∧
      ((SMC.stamp sym now) <$>
          SMC.checkOrderBlockEntry (SMC.updateOrderBlocks ohlc) md.bid = some s ∨
       (SMC.stamp sym now) <$>
          SMC.checkLiquidityGrabReversal (SMC.updateLiquidityZones ohlc) md.bid ohlc
            = some s ∨
       (SMC.stamp sym now) <$>
          SMC.checkFairValueGapFill (SMC.updateFairValueGaps ohlc) md.bid = some s)) := by
  constructor
  · intro hlen s hob hval
    unfold SMC.analyze
    rw [if_neg (by simp [hlen])]
    simp only [hob, Option.map_eq_map, Option.map_some', SMC.tryCand]
    rw [if_pos hval]
  · intro s h
    exact analyze_emits_validated st true sym ohlc md now s h

/-- Counterexample to claim C5 as stated: on `winMulti` with bid 101 both the
order-block category and the fair-value-gap category have a candidate that
passes validation, yet `analyze` — whose result type carries at most one
signal — emits only the order-block signal; no input can make it produce
more than one candidate in a cycle. -/
theorem analyze_one_signal_counterexample :
    SMC.checkOrderBlockEntry (SMC.updateOrderBlocks Examples.winMulti)
        Examples.mdMulti.bid = some Examples.rawOB ∧
    SMC.validateSignal (SMC.stamp "EURUSD" 0 Examples.rawOB) = true ∧
    SMC.checkFairValueGapFill (SMC.updateFairValueGaps Examples.winMulti)
        Examples.mdMulti.bid = some Examples.rawGap ∧
    SMC.validateSignal (SMC.stamp "EURUSD" 0 Examples.rawGap) = true ∧
    (SMC.analyze SMC.initState true "EURUSD" Examples.winMulti Examples.mdMulti 0).1 =
      some (SMC.stamp "EURUSD" 0 Examples.rawOB) ∧
    SMC.stamp "EURUSD" 0 Examples.rawOB ≠ SMC.stamp "EURUSD" 0 Examples.rawGap := by
  decide

/-- Witness for claim C5, amended,: on `winMulti` the validated order-block
candidate is the emitted signal. -/
theorem analyze_priority_witness :
    (SMC.analyze SMC.initState true "EURUSD" Examples.winMulti Examples.mdMulti 0).1 =
      some (SMC.stamp "EURUSD" 0 Examples.rawOB) :=
  (analyze_priority SMC.initState "EURUSD" Examples.winMulti Examples.mdMulti 0).1
    (by decide) Examples.rawOB (by decide) (by decide)

/-- The `(100, 102)` gap of `winFVG`, marked filled. -/
def Examples.gapFilled : SMC.FairValueGap := ⟨true, 102, 100, 47, true⟩

/-- The `(100, 102)` gap of `winFVG` as detection produces it. -/
def Examples.gapFresh : SMC.FairValueGap := ⟨true, 102, 100, 47, false⟩

/-- A strategy state in which that gap is already marked filled. -/
def Examples.stFilled : SMC.SMCState := ⟨[], [], [Examples.gapFilled]⟩

/-- Claim C1.  Evaluation at the failing input: (1) the skip check alone does
honour the flag — `checkFairValueGapFill` skips a filled gap; but (2)
`updateFairValueGaps` re-derives every gap with `filled := false`,
discarding any prior marking, so (3,4) even starting from a state in which
the gap is marked filled, `analyze` re-emits the gap signal and leaves the
gap unfilled in the recomputed set; and (5) nothing ever sets the flag, so
a second cycle on the same window re-triggers the very same signal. -/
theorem fvg_filled_flag_bug :
    SMC.checkFairValueGapFill [Examples.gapFilled] 101 = none ∧
    SMC.updateFairValueGaps Examples.winFVG = [Examples.gapFresh] ∧
    (SMC.analyze Examples.stFilled true "EURUSD" Examples.winFVG Examples.mdFVG 0).1 =
      some Examples.sigFVG ∧
    (SMC.analyze Examples.stFilled true "EURUSD" Examples.winFVG
        Examples.mdFVG 0).2.fairValueGaps = [Examples.gapFresh] ∧
    (SMC.analyze (SMC.analyze SMC.initState true "EURUSD" Examples.winFVG
        Examples.mdFVG 0).2 true "EURUSD" Examples.winFVG Examples.mdFVG 0).1 =
      some Examples.sigFVG := by
  decide

/-- Modelled from the claim's words (C6), for comparison with the code:
`size = riskAmount / stopDistanceInPriceUnits`, clamped into
`[volumeMin, volumeMax]` and then rounded to the nearest `volumeStep`. -/
def Risk.claimedPositionSize (rp : RiskParams) (signal : StrategySignal)
    (accountInfo : AccountInfo) (si : SymbolInfo) : ℚ :=
  let riskAmount := qDiv (qMul accountInfo.equity rp.maxRiskPerTrade) 100
  let stopDistance := jsAbs (qSub signal.entry signal.stopLoss)
  let raw := qDiv riskAmount stopDistance
  qMul (jsRound (qDiv (jsMax si.volumeMin (jsMin si.volumeMax raw)) si.volumeStep))
    si.volumeStep

/-- EURUSD-like symbol limits: point 0.0001, volumes in `[0.01, 5]`,
step 0.01. -/
def Examples.siEx : SymbolInfo := ⟨mkRat 1 10000, mkRat 1 100, 5, mkRat 1 100⟩

/-- Account with equity 10,000. -/
def Examples.acctEx : AccountInfo := ⟨10000, 10000⟩

/-- A signal with entry 1.1000 and stop 1.0900 (stop distance 0.01). -/
def Examples.sigSize : StrategySignal :=
  ⟨"EURUSD", .BUY, 1, mkRat 11 10, mkRat 109 100, mkRat 113 100, "SMC", 0⟩

/-- Counterexample to claim C6 as stated: with equity 10,000, risk 2%
(riskAmount 200), stop distance 0.01 and point 0.0001, the code computes
`200 / (0.01 / 0.0001) = 2` lots — the stop distance is converted to
points — while the claim's `riskAmount / stopDistanceInPriceUnits`
formula gives `200 / 0.01 = 20,000`, clamped to 5.  The code's answer (2)
differs from the claim's (5). -/
theorem positionSize_formula_counterexample :
    Risk.calculatePositionSize Examples.rpEx Examples.sigSize Examples.acctEx
      (some Examples.siEx) = 2 ∧
    Risk.claimedPositionSize Examples.rpEx Examples.sigSize Examples.acctEx
      Examples.siEx = 5 ∧
    (2 : ℚ) ≠ 5 := by
  decide

/-- Claim C6, amended.  With a positive stop distance, point and volume
step (where the `ℚ` embedding and the JS floats agree), the position size
equals `riskAmount × point / stopDistance` — the stop distance is measured
in points (`stopDistance / point`), `tickValue = 1` — rounded to the
nearest `volumeStep` first and then clamped into
`[volumeMin, volumeMax]`; and whenever the computed size is ≤ 0 at the
sizing step (all earlier checks passing), `validateTrade` rejects with the
invalid-position-size reason. -/
theorem calculatePositionSize_amended (rp : RiskParams) (sig : StrategySignal)
    (acct : AccountInfo) (si : SymbolInfo)
    (_hd : 0 < |sig.entry - sig.stopLoss|) (_hp : 0 < si.point)
    (_hs : 0 < si.volumeStep) :
    Risk.calculatePositionSize rp sig acct (some si) =
      max si.volumeMin (min si.volumeMax
        (((⌊acct.equity * rp.maxRiskPerTrade / 100 * si.point /
            |sig.entry - sig.stopLoss| / si.volumeStep + 1/2⌋ : ℤ) : ℚ) *
          si.volumeStep)) ∧
    (∀ st env, st.isTradeBlocked = false → env.accountInfo = some acct →
      (Risk.checkDailyLossLimit rp st acct).1 = true →
      env.positions.length < rp.maxOpenPositions →
      ∀ md, env.marketData = some md → md.spread ≤ rp.maxSpread →
      Risk.calculatePositionSize rp sig acct env.symbolInfo ≤ 0 →
      (Risk.validateTrade rp st env sig).1 =
        ⟨false, .invalidPositionSize, none, none⟩) := by
  constructor
  · unfold Risk.calculatePositionSize
    simp only [qDiv_eq, qMul_eq, qSub_eq, jsAbs_eq, jsMin_eq, jsMax_eq, jsRound_eq]
    rw [mul_one, div_div_eq_mul_div]
  · intro st env hb hacct hdaily hpos md hmd hspread hsize
    have hc : Risk.checkDailyLossLimit rp st acct = (true, st) := by
      unfold Risk.checkDailyLossLimit at hdaily ⊢
      by_cases hcond : qDiv (qMul st.dailyStartBalance rp.maxDailyLoss) 100 ≤
          qSub st.dailyStartBalance acct.balance
      · rw [if_pos hcond] at hdaily
        simp at hdaily
      · rw [if_neg hcond]
    simp [Risk.validateTrade, hb, hacct, hc, hmd, Nat.not_le.mpr hpos,
      not_lt.mpr hspread, hsize]

/-- Environment whose symbol info is missing, so the computed size is 0
and the sizing step rejects. -/
def Examples.envNoSym : Risk.RMEnv :=
  ⟨some Examples.acctEx, [], some ⟨"EURUSD", 101, 101, 0, 0, 0⟩, none⟩

/-- Witness for claim C6, amended, at the EURUSD-like limits: the sizing
equation holds at the concrete input, and with missing symbol info (size
0 ≤ 0) the validation rejects with the invalid-position-size reason. -/
theorem calculatePositionSize_amended_witness :
    Risk.calculatePositionSize Examples.rpEx Examples.sigSize Examples.acctEx
        (some Examples.siEx) =
      max Examples.siEx.volumeMin (min Examples.siEx.volumeMax
        (((⌊Examples.acctEx.equity * Examples.rpEx.maxRiskPerTrade / 100 *
            Examples.siEx.point /
            |Examples.sigSize.entry - Examples.sigSize.stopLoss| /
            Examples.siEx.volumeStep + 1/2⌋ : ℤ) : ℚ) *
          Examples.siEx.volumeStep)) ∧
    (Risk.validateTrade Examples.rpEx ⟨10000, 0, false⟩ Examples.envNoSym
        Examples.sigSize).1 = ⟨false, .invalidPositionSize, none, none⟩ := by
  have h := calculatePositionSize_amended Examples.rpEx Examples.sigSize Examples.acctEx
    Examples.siEx (by simp only [← jsAbs_eq, ← qSub_eq]; decide) (by decide) (by decide)
  refine ⟨h.1, ?_⟩
  exact h.2 ⟨10000, 0, false⟩ Examples.envNoSym rfl rfl (by decide) (by decide)
    ⟨"EURUSD", 101, 101, 0, 0, 0⟩ rfl (by decide) (by decide)
